import Mathlib

/-!
Verification of the Cpp-P2P-Server gossip node against its specification.

The C++ sources are shallowly embedded: `std::string` values become
`List Char`, the 64-bit `size_t` arithmetic is `Nat` with explicit
reduction modulo `2 ^ 64` where the source can wrap, wall-clock instants
(`clocks::time_type`, second granularity) are `Int`, and code that can
throw returns `Except (List Char)` carrying the exception name.
-/

/-- The constant 2 ^ 64, the modulus of `size_t` arithmetic on the target platform. -/
def W64 : Nat := 18446744073709551616

/-- The constant `std::string::npos`, i.e. `size_t(-1) = 2 ^ 64 - 1`. -/
def NPOS : Nat := 18446744073709551615

/-- Convert a Lean string literal to the `List Char` representation used
for embedded `std::string` values. -/
def toL (s : String) : List Char := s.data

/-! ## String helpers of the `strings` namespace (src/utils.hpp) -/

/-- The `std::isspace` test used by `strings::ltrim`/`strings::rtrim`. -/
def isSpaceC (c : Char) : Bool :=
  c = ' ' || c = '\t' || c = '\n' || c = '\x0b' || c = '\x0c' || c = '\r'

/-- Model of `strings::ltrim`: erase leading whitespace. -/
def ltrimL (s : List Char) : List Char := s.dropWhile isSpaceC

/-- Model of `strings::rtrim`: erase trailing whitespace. -/
def rtrimL (s : List Char) : List Char := (s.reverse.dropWhile isSpaceC).reverse

/-- Model of `strings::trim`: erase leading and trailing whitespace. -/
def trimL (s : List Char) : List Char := rtrimL (ltrimL s)

/-- Index of the first occurrence of `c` in `s`, if any
(`std::string::find` before the `npos` encoding). -/
def findIdx : List Char → Char → Option Nat
  | [], _ => none
  | a :: s, c => if a = c then some 0 else (findIdx s c).map (· + 1)

/-- Model of `std::string::find`: first occurrence of `c`, or `npos`. -/
def cppFind (s : List Char) (c : Char) : Nat :=
  match findIdx s c with
  | some i => i
  | none => NPOS

/-- Model of `std::string::substr(pos, count)` on in-range positions. -/
def cppSubstr (s : List Char) (pos count : Nat) : List Char :=
  (s.drop pos).take count

/-- Model of `strings::split(s, delimiter)` from src/utils.hpp:
`make_pair(s.substr(0, s.find(d)), s.substr(s.find(d) + 1, s.size()))`.
The second position is `size_t` arithmetic, so `npos + 1` wraps to `0`. -/
def split (s : List Char) (delimiter : Char) : List Char × List Char :=
  (cppSubstr s 0 (cppFind s delimiter),
   cppSubstr s ((cppFind s delimiter + 1) % W64) s.length)

/-- Model of `strings::contains` via `std::string::find != npos`:
`hasSub s t` holds when `t` occurs as a contiguous substring of `s`. -/
def startsWithL : List Char → List Char → Bool
  | _, [] => true
  | [], _ :: _ => false
  | a :: s, b :: t => a = b && startsWithL s t

/-- Substring test backing `strings::contains`. -/
def hasSub : List Char → List Char → Bool
  | [], t => t.isEmpty
  | a :: s, t => startsWithL (a :: s) t || hasSub s t

/-! ## Model of `std::stoul` -/

/-- One decimal digit test. -/
def isDigitC (c : Char) : Bool := '0' ≤ c && c ≤ '9'

/-- Model of `std::stoul` (base 10): skip leading whitespace and an optional sign,
then a run of decimal digits.  `none` models a thrown exception: with no
digits `std::invalid_argument`, with a value above `ULONG_MAX`
`std::out_of_range`.  A parsed negative magnitude is negated modulo
`2 ^ 64`, as `strtoul` does. -/
def cppStoul (s : List Char) : Option Nat :=
  let s1 := s.dropWhile isSpaceC
  let (neg, s2) : Bool × List Char :=
    match s1 with
    | '-' :: r => (true, r)
    | '+' :: r => (false, r)
    | r => (false, r)
  let ds := s2.takeWhile isDigitC
  if ds = [] then none
  else
    let v := ds.foldl (fun a c => a * 10 + (c.toNat - 48)) 0
    if v > NPOS then none
    else some (if neg then (W64 - v % W64) % W64 else v)

/-! ## Logical clock (src/shared_state.hpp)

`m_timestamp` is a `std::atomic<size_t>`; `+= 1` wraps modulo `2 ^ 64`. -/

/-- Model of `shared_state::increment_timestamp`: `m_timestamp += 1` on `size_t`. -/
def increment_timestamp (c : Nat) : Nat := (c + 1) % W64

/-- Model of `shared_state::update_timestamp`:
`m_timestamp = std::max(m_timestamp.load(), val)`. -/
def update_timestamp (c val : Nat) : Nat := max c val

/-- An abstract clock operation: a `tick` (`increment_timestamp`) or an
`observe t` (`update_timestamp` with value `t`). -/
inductive ClockOp where
  | tick : ClockOp
  | observe (t : Nat) : ClockOp
deriving DecidableEq, Repr

/-- Run a sequence of clock operations from clock value `c`. -/
def runClock : Nat → List ClockOp → Nat
  | c, [] => c
  | c, ClockOp.tick :: ops => runClock (increment_timestamp c) ops
  | c, ClockOp.observe t :: ops => runClock (update_timestamp c t) ops

/-- The sequence stays inside 64-bit range: every `observe` value is a
`size_t`, and no `tick` is applied when the clock sits at `2 ^ 64 - 1`
(which would wrap to `0`). -/
def okOps : Nat → List ClockOp → Prop
  | _, [] => True
  | c, ClockOp.tick :: ops => c + 1 < W64 ∧ okOps (increment_timestamp c) ops
  | c, ClockOp.observe t :: ops => t < W64 ∧ okOps (update_timestamp c t) ops

instance : ∀ c ops, Decidable (okOps c ops) := by
  intro c ops
  induction ops generalizing c with
  | nil => exact isTrue trivial
  | cons op ops ih =>
    cases op with
    | tick => exact @instDecidableAnd _ _ inferInstance (ih _)
    | observe t => exact @instDecidableAnd _ _ inferInstance (ih _)

/-! ## Decimal rendering (`std::to_string` / stream `<<` on integers) -/

/-- The character for one decimal digit. -/
def digitChar : Nat → Char
  | 0 => '0' | 1 => '1' | 2 => '2' | 3 => '3' | 4 => '4'
  | 5 => '5' | 6 => '6' | 7 => '7' | 8 => '8' | 9 => '9'
  | _ => '0'

/-- Numeric value of a decimal digit character. -/
def charToDigit (c : Char) : Nat := c.toNat - 48

/-- Digits of `n`, most significant first; `fuel` bounds the recursion
and any `fuel ≥ n` is enough. -/
def natToCharsAux : Nat → Nat → List Char
  | 0, _ => []
  | _ + 1, 0 => []
  | fuel + 1, n + 1 =>
    natToCharsAux fuel ((n + 1) / 10) ++ [digitChar ((n + 1) % 10)]

/-- Decimal rendering of a natural, as produced by `std::to_string` and
by `operator<<` on unsigned integers. -/
def natToChars (n : Nat) : List Char :=
  if n = 0 then ['0'] else natToCharsAux n n

/-- Read a decimal digit string back to a natural (used by the report
parser of §4.8). -/
def natFromChars (cs : List Char) : Nat :=
  cs.foldl (fun a c => a * 10 + charToDigit c) 0

/-! ## Addresses (src/net/socket_address.hpp)

`net::address_v4` stores a resolved IPv4 address and a 16-bit port; it is
modelled by its canonical dotted-quad host string together with the port.
Equality and hashing are by the pair. -/

structure addr where
  host : List Char
  port : Nat
deriving DecidableEq, Repr

/-- Model of `address_v4::to_string`: `inet_ntop` of the host part, `':'`, and the
decimal port. -/
def addrToString (a : addr) : List Char := a.host ++ ':' :: natToChars a.port

/-! ## Activity Log (src/logger.hpp) -/

/-- The `source_entry` record: the peers learned from one registry source plus a
date string. -/
structure sourceEntry where
  peers : List addr
  date : List Char
deriving DecidableEq, Repr

/-- The `peer_entry` record: one sent or received peer advert (`to`, `from`, date). -/
structure peerAdvert where
  dst : List Char
  src : List Char
  date : List Char
deriving DecidableEq, Repr

/-- The `snippet_entry` record: one logged snippet. -/
structure snippetEntry where
  timestamp : Nat
  message : List Char
  sender : List Char
deriving DecidableEq, Repr

/-- The five collections of the `logger` base class.  The unordered
containers are modelled in insertion order; any fixed order works for the
claims, which compare a log only with itself. -/
structure logState where
  peersL : List (List Char)
  sources : List (List Char × sourceEntry)
  sentPeers : List peerAdvert
  recvPeers : List peerAdvert
  snippets : List snippetEntry
deriving DecidableEq, Repr

/-- The empty log a fresh `logger` starts with. -/
def logInit : logState := ⟨[], [], [], [], []⟩

/-- Model of `std::unordered_set<std::string>::insert`. -/
def insertStr (l : List (List Char)) (s : List Char) : List (List Char) :=
  if s ∈ l then l else l ++ [s]

/-- Model of `logger::log_peer`. -/
def log_peer (lg : logState) (p : List Char) : logState :=
  { lg with peersL := insertStr lg.peersL p }

/-- Model of the assignment `m_sources[src] = entry` (`std::unordered_map` assignment). -/
def putSource : List (List Char × sourceEntry) → List Char → sourceEntry →
    List (List Char × sourceEntry)
  | [], k, e => [(k, e)]
  | q :: l, k, e => if q.1 = k then (k, e) :: l else q :: putSource l k e

/-- Model of `logger::log_source`. -/
def log_source (lg : logState) (src : List Char) (ps : List addr)
    (date : List Char) : logState :=
  { lg with sources := putSource lg.sources src ⟨ps, date⟩ }

/-- Model of `logger::log_sent_peer`. -/
def log_sent_peer (lg : logState) (toS fromS date : List Char) : logState :=
  { lg with sentPeers := lg.sentPeers ++ [⟨toS, fromS, date⟩] }

/-- Model of `logger::log_recv_peer`. -/
def log_recv_peer (lg : logState) (toS fromS date : List Char) : logState :=
  { lg with recvPeers := lg.recvPeers ++ [⟨toS, fromS, date⟩] }

/-- Model of `logger::log_snippet`. -/
def log_snippet (lg : logState) (ts : Nat) (msg sender : List Char) : logState :=
  { lg with snippets := lg.snippets ++ [⟨ts, msg, sender⟩] }

/-! ## Shared state and peer manager (src/shared_state.hpp,
src/peer_manager.hpp) -/

/-- Model of `shared_state::update` / `shared_state::join`:
`m_peers[peer] = now` on the `unordered_map` (update the key if present,
otherwise insert it). -/
def joinP : List (addr × Int) → addr → Int → List (addr × Int)
  | [], p, t => [(p, t)]
  | q :: m, p, t => if q.1 = p then (p, t) :: m else q :: joinP m p t

/-- Model of `shared_state::leave`: `m_peers.erase(peer)`. -/
def leaveP (m : List (addr × Int)) (p : addr) : List (addr × Int) :=
  m.filter (fun q => decide (q.1 ≠ p))

/-- The mutable state of one gossip node: the `shared_state` fields
(address, running flag, peer table, Lamport clock), the `logger`
collections, and the two `io_context` mailboxes. -/
structure nodeState where
  address : addr
  running : Bool
  clock : Nat
  peers : List (addr × Int)
  log : logState
  incoming : List (List Char × List Char × Nat)
  outgoing : List (List Char)
deriving DecidableEq, Repr

/-- Model of `shared_state::shared_state(address)`: stores the address, sets
`m_running = true` and `m_timestamp = 0`; the peer table starts empty. -/
def shared_state_init (address : addr) : nodeState :=
  { address := address, running := true, clock := 0, peers := [],
    log := logInit, incoming := [], outgoing := [] }

/-- The bootstrap `peer_manager` constructor: for each bootstrap peer,
`m_state->join(peer)` and `log_peer(peer.to_string())`, then
`log_source(src.to_string(), peers)` with the current date string. -/
def peer_manager_init (st : nodeState) (src : addr) (bootstrap : List addr)
    (now : Int) (date : List Char) : nodeState :=
  let st1 := bootstrap.foldl (fun s p =>
    { s with peers := joinP s.peers p now,
             log := log_peer s.log (addrToString p) }) st
  { st1 with log := log_source st1.log (addrToString src) bootstrap date }

/-- Model of `peer_manager::on_snip`: split the trimmed payload at the first
space, `std::stoul` the first component (`none` models the thrown
`std::invalid_argument` / `std::out_of_range`, which nothing in the
listener catches), touch the sender in the peer table, advance the clock
to the maximum with the message timestamp, push
`(sender, text, m_state->timestamp())` into the incoming mailbox, and log
a snippet record with the updated clock. -/
def on_snip (st : nodeState) (sender : addr) (content : List Char)
    (now : Int) : Except (List Char) nodeState :=
  let message := split content ' '
  match cppStoul message.1 with
  | none => Except.error (toL "invalid_argument")
  | some timestamp =>
    let st1 := { st with peers := joinP st.peers sender now }
    let c' := update_timestamp st1.clock timestamp
    Except.ok { st1 with
      clock := c',
      incoming := st1.incoming ++ [(addrToString sender, message.2, c')],
      log := log_snippet st1.log c' message.2 (addrToString sender) }

/-- Model of `peer_manager::on_peer`: split the payload at `':'`, `std::stoul` the
port (a thrown `std::invalid_argument` is not caught: the handler's catch
clause only covers `net::address_error`), resolve the host (`resolve`
models `getaddrinfo`; a failure is the caught `net::address_error`, which
drops the update), then touch sender and advertised peer and append the
log records. -/
def on_peer (resolve : List Char → Option (List Char)) (st : nodeState)
    (sender : addr) (content : List Char) (now : Int) (date : List Char) :
    Except (List Char) nodeState :=
  let hp := split content ':'
  match cppStoul hp.2 with
  | none => Except.error (toL "invalid_argument")
  | some p =>
    match resolve hp.1 with
    | none => Except.ok st
    | some h =>
      let newPeer : addr := ⟨h, p % 65536⟩
      let st1 := { st with peers := joinP (joinP st.peers sender now) newPeer now }
      Except.ok { st1 with
        log := log_recv_peer
          (log_peer (log_peer st1.log (addrToString sender)) (addrToString newPeer))
          (addrToString sender) (addrToString newPeer) date }

/-- Model of `parse_request`: the first four bytes are the opcode, the rest the
payload. -/
def parse_request (data : List Char) : List Char × List Char :=
  (data.take 4, data.drop 4)

/-- Outcome of one iteration of `peer_manager::listen`: continue looping,
or break out of the loop (a `stop` datagram). -/
inductive stepOut where
  | next (st : nodeState) : stepOut
  | halted (st : nodeState) : stepOut
deriving DecidableEq, Repr

/-- One iteration of the `peer_manager::listen` loop on a received
datagram: dispatch on the opcode, trimming the payload for `peer` and
`snip`; unknown opcodes are ignored. An `Except.error` is an exception
propagating out of the listener loop (nothing catches it there). -/
def listenStep (resolve : List Char → Option (List Char)) (st : nodeState)
    (sender : addr) (data : List Char) (now : Int) (date : List Char) :
    Except (List Char) stepOut :=
  let rq := parse_request data
  if rq.1 = toL "peer" then
    (on_peer resolve st sender (trimL rq.2) now date).map stepOut.next
  else if rq.1 = toL "snip" then
    (on_snip st sender (trimL rq.2) now).map stepOut.next
  else if rq.1 = toL "stop" then
    Except.ok (stepOut.halted st)
  else
    Except.ok (stepOut.next st)

/-- Model of `peer_manager::clean_peer_list` with `DEFAULT_TIMEOUT = 20` seconds:
iterate over a snapshot of the peer table and `leave` every entry whose
elapsed time `current_time - time` exceeds the timeout. -/
def clean_peer_list (m : List (addr × Int)) (now : Int) : List (addr × Int) :=
  m.foldl (fun acc q => if now - q.2 > 20 then leaveP acc q.1 else acc) m

/-! ## Registry client (src/registry.hpp) -/

/-- The `registry::request` enumeration. -/
inductive requestT where
  | empty | name | code | location | report | peers | close | invalid
deriving DecidableEq, Repr

/-- Model of `registry::to_request`: empty line first, then substring matches in
source order. -/
def to_request (s : List Char) : requestT :=
  if s.isEmpty then requestT.empty
  else if hasSub s (toL "get team name") then requestT.name
  else if hasSub s (toL "get code") then requestT.code
  else if hasSub s (toL "get location") then requestT.location
  else if hasSub s (toL "get report") then requestT.report
  else if hasSub s (toL "receive peers") then requestT.peers
  else if hasSub s (toL "close") then requestT.close
  else requestT.invalid

/-- The key set of the static `request_handlers` map: it has entries for
the six commands only — no entry for `request::empty` or
`request::invalid`. -/
def request_handlers_has : requestT → Bool
  | requestT.empty => false
  | requestT.invalid => false
  | _ => true

/-- One turn of the `registry::run` dialog loop on a received command
line: `request_handlers.at(to_request(cmd))`.  `std::unordered_map::at`
throws `std::out_of_range` when the key is absent, and `run` has no
try/catch, so the error propagates out of `registry::run`. -/
def run_step (cmd : List Char) : Except (List Char) requestT :=
  let req := to_request cmd
  if request_handlers_has req then Except.ok req
  else Except.error (toL "out_of_range")

/-- Model of `std::getline` from a string stream: the line up to the first `'\n'`
(or the end of the data) and the remaining characters. -/
def readLine : List Char → List Char × List Char
  | [] => ([], [])
  | c :: r =>
    if c = '\n' then ([], r)
    else
      let p := readLine r
      (c :: p.1, p.2)

/-- Model of `std::unordered_set<address_v4>::insert` on the initial peer set. -/
def insertAddr (l : List addr) (a : addr) : List addr :=
  if a ∈ l then l else l ++ [a]

/-- The loop body of the `receive peers` handler
(`request_handlers[request::peers]`): for each of `n` lines, split at
`':'`, `std::stoul` the port (a throw is uncaught), construct the
`address_v4` — which resolves the host and throws `net::address_error`
(uncaught here) when resolution fails — and only then insert it unless
the host string is `"null"`. -/
def handle_peers_loop (resolve : List Char → Option (List Char)) :
    Nat → List Char → List addr → Except (List Char) (List addr)
  | 0, _, acc => Except.ok acc
  | n + 1, s, acc =>
    let line := readLine s
    let hp := split line.1 ':'
    match cppStoul hp.2 with
    | none => Except.error (toL "invalid_argument")
    | some p =>
      match resolve hp.1 with
      | none => Except.error (toL "address_error")
      | some h =>
        let a : addr := ⟨h, p % 65536⟩
        handle_peers_loop resolve n line.2
          (if hp.1 ≠ toL "null" then insertAddr acc a else acc)

/-- The `receive peers` handler: read the count line, `std::stoul` it,
then run the insertion loop over the following lines.  (The trailing
`close\n` check only closes the socket and does not affect the peer
set.) -/
def handle_peers (resolve : List Char → Option (List Char))
    (data : List Char) (peers0 : List addr) : Except (List Char) (List addr) :=
  let l1 := readLine data
  match cppStoul l1.1 with
  | none => Except.error (toL "invalid_argument")
  | some n => handle_peers_loop resolve n l1.2 peers0

/-! ## Report assembly (src/peer_manager.hpp `assemble_report`) -/

/-- One `to from date` advert line of the report. -/
def advertLine (p : peerAdvert) : List Char := p.dst ++ ' ' :: p.src ++ ' ' :: p.date

/-- Model of `assemble_report`: serialize the Activity Log in the §4.8 layout —
peer set, sources (each with its learned peers), received adverts, sent
adverts, snippets, every record preceded by its count line. -/
def assemble_report (lg : logState) : List Char :=
  natToChars lg.peersL.length ++ '\n' ::
    ((lg.peersL.map (fun p => p ++ ['\n'])).flatten ++
  natToChars lg.sources.length ++ '\n' ::
    ((lg.sources.map (fun se =>
        se.1 ++ '\n' :: se.2.date ++ '\n' :: natToChars se.2.peers.length ++ '\n' ::
          (se.2.peers.map (fun p => addrToString p ++ ['\n'])).flatten)).flatten ++
  natToChars lg.recvPeers.length ++ '\n' ::
    ((lg.recvPeers.map (fun p => advertLine p ++ ['\n'])).flatten ++
  natToChars lg.sentPeers.length ++ '\n' ::
    ((lg.sentPeers.map (fun p => advertLine p ++ ['\n'])).flatten ++
  natToChars lg.snippets.length ++ '\n' ::
    (lg.snippets.map (fun s =>
        natToChars s.timestamp ++ ' ' :: s.message ++ ' ' :: s.sender ++ ['\n'])).flatten))))

/-! ## Report parser (from the §4.8 layout) -/

/-- Read one count line. -/
def parseCount (s : List Char) : Nat × List Char :=
  let l := readLine s
  (natFromChars l.1, l.2)

/-- Skip `n` whole lines. -/
def skipLines : Nat → List Char → List Char
  | 0, s => s
  | n + 1, s => skipLines n (readLine s).2

/-- Skip `n` source records: two lines, a count line `k`, then `k`
learned-peer lines each. -/
def skipSources : Nat → List Char → List Char
  | 0, s => s
  | n + 1, s =>
    let s1 := skipLines 2 s
    let c := parseCount s1
    skipSources n (skipLines c.1 c.2)

/-- Parse the five §4.8 counts out of a report string. -/
def parseReportCounts (s : List Char) : Nat × Nat × Nat × Nat × Nat :=
  let c1 := parseCount s
  let s1 := skipLines c1.1 c1.2
  let c2 := parseCount s1
  let s2 := skipSources c2.1 c2.2
  let c3 := parseCount s2
  let s3 := skipLines c3.1 c3.2
  let c4 := parseCount s3
  let s4 := skipLines c4.1 c4.2
  let c5 := parseCount s4
  (c1.1, c2.1, c3.1, c4.1, c5.1)

/-- No embedded newline. -/
def noNL (l : List Char) : Prop := '\n' ∉ l

/-- The strings the program actually stores in the log's pre-snippet
collections are endpoint strings and `strftime` dates, none of which
contain a newline. -/
def logWF (lg : logState) : Prop :=
  (∀ p ∈ lg.peersL, noNL p) ∧
  (∀ se ∈ lg.sources, noNL se.1 ∧ noNL se.2.date ∧ ∀ a ∈ se.2.peers, noNL a.host) ∧
  (∀ p ∈ lg.recvPeers, noNL p.dst ∧ noNL p.src ∧ noNL p.date) ∧
  (∀ p ∈ lg.sentPeers, noNL p.dst ∧ noNL p.src ∧ noNL p.date)

instance : DecidablePred noNL := fun l =>
  inferInstanceAs (Decidable ('\n' ∉ l))

instance (lg : logState) : Decidable (logWF lg) := by
  unfold logWF
  infer_instance

/-- A model of `getaddrinfo` for the failing-input evaluation: dotted
decimal IPv4 literals resolve (to themselves); the sentinel `"null"` is
not a hostname and fails to resolve. -/
def literalResolve (s : List Char) : Option (List Char) :=
  if s.isEmpty then none
  else if s.all (fun c => isDigitC c || c = '.') then some s else none

/-- A small concrete Activity Log for evaluating the report round-trip:
one peer, one source (with one learned peer), one received advert, one
sent advert, one snippet. -/
def sampleLog : logState :=
  { peersL := [toL "10.0.0.2:5000"],
    sources := [(toL "9.9.9.9:1",
      ⟨[⟨toL "10.0.0.2", 5000⟩], toL "2024-01-01 10:00:00"⟩)],
    sentPeers := [⟨toL "10.0.0.2:5000", toL "10.0.0.1:4000",
      toL "2024-01-01 10:00:05"⟩],
    recvPeers := [⟨toL "10.0.0.3:1", toL "10.0.0.1:4000",
      toL "2024-01-01 10:00:06"⟩],
    snippets := [⟨7, toL "hi", toL "10.0.0.2:5000"⟩] }

/-! Basic clock lemmas. -/

theorem increment_timestamp_eq_of_lt {c : Nat} (h : c + 1 < W64) :
    increment_timestamp c = c + 1 := by
  unfold increment_timestamp
  exact Nat.mod_eq_of_lt h

theorem runClock_append (c : Nat) (l r : List ClockOp) :
    runClock c (l ++ r) = runClock (runClock c l) r := by
  induction l generalizing c with
  | nil => rfl
  | cons op l ih =>
    cases op with
    | tick => simpa [runClock] using ih (increment_timestamp c)
    | observe t => simpa [runClock] using ih (update_timestamp c t)

theorem okOps_append {c : Nat} {l r : List ClockOp} (h : okOps c (l ++ r)) :
    okOps c l ∧ okOps (runClock c l) r := by
  induction l generalizing c with
  | nil => exact ⟨trivial, h⟩
  | cons op l ih =>
    cases op with
    | tick =>
      obtain ⟨h1, h2⟩ := h
      obtain ⟨h3, h4⟩ := ih h2
      exact ⟨⟨h1, h3⟩, h4⟩
    | observe t =>
      obtain ⟨h1, h2⟩ := h
      obtain ⟨h3, h4⟩ := ih h2
      exact ⟨⟨h1, h3⟩, h4⟩

theorem le_runClock (c : Nat) (ops : List ClockOp) (h : okOps c ops) :
    c ≤ runClock c ops := by
  induction ops generalizing c with
  | nil => exact Nat.le_refl c
  | cons op ops ih =>
    cases op with
    | tick =>
      obtain ⟨h1, h2⟩ := h
      calc c ≤ increment_timestamp c := by
              rw [increment_timestamp_eq_of_lt h1]; exact Nat.le_succ c
        _ ≤ runClock (increment_timestamp c) ops := ih _ h2
    | observe t =>
      obtain ⟨h1, h2⟩ := h
      calc c ≤ update_timestamp c t := Nat.le_max_left c t
        _ ≤ runClock (update_timestamp c t) ops := ih _ h2

theorem findIdx_eq_none {s : List Char} {c : Char} (h : c ∉ s) :
    findIdx s c = none := by
  induction s with
  | nil => rfl
  | cons a s ih =>
    have ha : ¬(a = c) := fun hac => h (hac ▸ List.mem_cons_self a s)
    have hs : c ∉ s := fun hc => h (List.mem_cons_of_mem a hc)
    simp [findIdx, ha, ih hs]

/-- C2 (corrected): the clock is a 64-bit `size_t`; after `observe`
reaching `2 ^ 64 - 1`, a `tick` wraps to `0`, so the value after that tick
is strictly smaller than before it — the sequence is not monotone and the
tick is not strictly increasing. -/
theorem runClock_tick_wraps :
    runClock 0 [ClockOp.observe NPOS, ClockOp.tick] <
      runClock 0 [ClockOp.observe NPOS] := by
  show increment_timestamp (update_timestamp 0 NPOS) < update_timestamp 0 NPOS
  have h1 : update_timestamp 0 NPOS = NPOS := Nat.max_eq_right (Nat.zero_le _)
  have h2 : increment_timestamp NPOS = 0 := by
    unfold increment_timestamp
    norm_num [NPOS, W64]
  rw [h1, h2]
  norm_num [NPOS]

/-- C2 (amended): for every finite sequence of `tick`
(`increment_timestamp`) and `observe` (`update_timestamp`) operations in
which every observed value fits in 64 bits and no tick is applied at clock
value `2 ^ 64 - 1` (no `size_t` overflow), the clock value is monotone
non-decreasing across the sequence, every tick yields a strictly larger
value, and `observe t` sets the value to `max current t`. -/
theorem runClock_monotone (c : Nat) (ops : List ClockOp) (hok : okOps c ops) :
    (∀ l r, ops = l ++ r → runClock c l ≤ runClock c ops) ∧
    (∀ l r, ops = l ++ ClockOp.tick :: r →
      runClock c l < runClock c (l ++ [ClockOp.tick])) ∧
    (∀ d t, update_timestamp d t = max d t) := by
  refine ⟨?_, ?_, fun d t => rfl⟩
  · intro l r hlr
    subst hlr
    rw [runClock_append]
    exact le_runClock _ _ (okOps_append hok).2
  · intro l r hlr
    subst hlr
    obtain ⟨-, htick⟩ := okOps_append (c := c) (l := l) hok
    obtain ⟨hlt, -⟩ := htick
    rw [runClock_append]
    show runClock c l < runClock (increment_timestamp (runClock c l)) []
    rw [runClock, increment_timestamp_eq_of_lt hlt]
    exact Nat.lt_succ_self _

/-- Witness for C2's amended theorem: clock `3`, operations
`[observe 7, tick]` satisfy the no-overflow hypothesis and the theorem
applies. -/
theorem runClock_monotone_witness :
    okOps 3 [ClockOp.observe 7, ClockOp.tick] ∧
    ((∀ l r, [ClockOp.observe 7, ClockOp.tick] = l ++ r →
        runClock 3 l ≤ runClock 3 [ClockOp.observe 7, ClockOp.tick]) ∧
     (∀ l r, [ClockOp.observe 7, ClockOp.tick] = l ++ ClockOp.tick :: r →
        runClock 3 l < runClock 3 (l ++ [ClockOp.tick])) ∧
     (∀ d t, update_timestamp d t = max d t)) :=
  ⟨by decide, runClock_monotone 3 [ClockOp.observe 7, ClockOp.tick] (by decide)⟩

/-- C10: for every string `s` and delimiter `c` not occurring in `s`,
`strings::split(s, c)` returns `(s, s)`: `find` yields `npos`, so the
first component is `substr(0, npos) = s` and the second is
`substr(npos + 1 mod 2 ^ 64, size) = substr(0, size) = s`.  Hence a
`snip` payload with no space yields the whole payload as both the
timestamp string and the text. -/
theorem split_no_delimiter (s : List Char) (c : Char)
    (hlen : s.length ≤ NPOS) (h : c ∉ s) :
    split s c = (s, s) := by
  unfold split cppFind cppSubstr
  rw [findIdx_eq_none h]
  have h1 : (NPOS + 1) % W64 = 0 := by norm_num [NPOS, W64]
  simp only [h1, List.drop_zero, List.take_length]
  rw [List.take_of_length_le hlen]

/-- Witness for C10: `'x'` does not occur in `"hello"` and splitting at it
returns the whole string twice. -/
theorem split_no_delimiter_witness :
    (toL "hello").length ≤ NPOS ∧ 'x' ∉ toL "hello" ∧
      split (toL "hello") 'x' = (toL "hello", toL "hello") :=
  ⟨by decide, by decide, split_no_delimiter _ _ (by decide) (by decide)⟩

/-- C1: when the listener dispatches a `snip` datagram whose trimmed
payload splits into a timestamp string parsing to `t` and a text, with
the clock at `c = st.clock`, processing touches the sender, sets the
clock to `max c t`, pushes `(sender, text, max c t)` into the incoming
mailbox, and appends a snippet record with the same updated value. -/
theorem listen_snip_lamport (resolve : List Char → Option (List Char))
    (st : nodeState) (sender : addr) (data : List Char) (now : Int)
    (date tsStr text : List Char) (t : Nat)
    (hop : (parse_request data).1 = toL "snip")
    (hsplit : split (trimL (parse_request data).2) ' ' = (tsStr, text))
    (hts : cppStoul tsStr = some t) :
    listenStep resolve st sender data now date =
      Except.ok (stepOut.next
        { st with
          peers := joinP st.peers sender now,
          clock := max st.clock t,
          incoming := st.incoming ++ [(addrToString sender, text, max st.clock t)],
          log := log_snippet st.log (max st.clock t) text (addrToString sender) }) := by
  have hne : ¬((toL "snip" : List Char) = toL "peer") := by decide
  simp only [listenStep, hop, if_neg hne, if_pos rfl, on_snip, hsplit, hts,
    update_timestamp, Except.map, if_true, ite_true]

/-- Witness for C1, the spec's concrete scenario: clock `3`, datagram
`"snip7 hi"` from `10.0.0.2:5000`; afterwards the clock is `7`, the
incoming mailbox holds `("10.0.0.2:5000", "hi", 7)` and the snippet log a
matching record. -/
theorem listen_snip_lamport_witness :
    (parse_request (toL "snip7 hi")).1 = toL "snip" ∧
    split (trimL (parse_request (toL "snip7 hi")).2) ' ' = (toL "7", toL "hi") ∧
    cppStoul (toL "7") = some 7 ∧
    listenStep (fun _ => none)
        { shared_state_init ⟨toL "10.0.0.1", 4000⟩ with clock := 3 }
        ⟨toL "10.0.0.2", 5000⟩ (toL "snip7 hi") 100 (toL "2024-01-01") =
      Except.ok (stepOut.next
        { shared_state_init ⟨toL "10.0.0.1", 4000⟩ with
          peers := joinP [] ⟨toL "10.0.0.2", 5000⟩ 100,
          clock := 7,
          incoming := [(toL "10.0.0.2:5000", toL "hi", 7)],
          log := log_snippet logInit 7 (toL "hi") (toL "10.0.0.2:5000") }) := by
  refine ⟨by decide, by decide, by decide, ?_⟩
  have h := listen_snip_lamport (fun _ => none)
    { shared_state_init ⟨toL "10.0.0.1", 4000⟩ with clock := 3 }
    ⟨toL "10.0.0.2", 5000⟩ (toL "snip7 hi") 100 (toL "2024-01-01")
    (toL "7") (toL "hi") 7 (by decide) (by decide) (by decide)
  simpa using h

/-- C3: the listener does throw.  Dispatching the `snip` datagram
`"sniphi"` — payload `"hi"`, no space, no digits — reaches
`std::stoul("hi")`, which throws `std::invalid_argument`; neither
`on_snip` nor the `listen` loop catches it, so the exception leaves the
listener loop instead of the payload being treated as text with timestamp
`0`. -/
theorem listen_snip_no_space_throws :
    listenStep (fun _ => none) (shared_state_init ⟨toL "10.0.0.1", 4000⟩)
        ⟨toL "10.0.0.2", 5000⟩ (toL "sniphi") 0 (toL "2024-01-01") =
      Except.error (toL "invalid_argument") := by
  rfl

/-- C4 (counterexample): a `snip` datagram whose sender is the node's own
endpoint `10.0.0.1:4242` is still pushed into the incoming mailbox —
`on_snip` contains no self test — contradicting the claim that
self-originated snippets are not pushed. -/
theorem on_snip_self_pushes :
    (on_snip { shared_state_init ⟨toL "10.0.0.1", 4242⟩ with clock := 3 }
        ⟨toL "10.0.0.1", 4242⟩ (toL "7 hi") 0).map (fun s => s.incoming) =
      Except.ok [(toL "10.0.0.1:4242", toL "hi", 7)] := by
  rfl

/-- C4 (amended): every `snip` datagram whose payload parses — from the
node's own endpoint or any other sender alike — both appends a snippet
record to the Activity Log and pushes a tuple into the incoming mailbox;
the handler never compares the sender against the node's own address. -/
theorem on_snip_always_pushes (st : nodeState) (sender : addr)
    (content tsStr text : List Char) (t : Nat) (now : Int)
    (hsplit : split content ' ' = (tsStr, text))
    (hts : cppStoul tsStr = some t) :
    ∃ st', on_snip st sender content now = Except.ok st' ∧
      st'.incoming = st.incoming ++ [(addrToString sender, text, max st.clock t)] ∧
      st'.log.snippets = st.log.snippets ++ [⟨max st.clock t, text, addrToString sender⟩] := by
  have hrun : on_snip st sender content now = Except.ok
      { st with
        peers := joinP st.peers sender now,
        clock := max st.clock t,
        incoming := st.incoming ++ [(addrToString sender, text, max st.clock t)],
        log := log_snippet st.log (max st.clock t) text (addrToString sender) } := by
    simp only [on_snip, hsplit, hts, update_timestamp]
  exact ⟨_, hrun, by simp, by simp [log_snippet]⟩

/-- Witness for C4's amended theorem at the self-sender instance: node
address `10.0.0.1:4242`, a `"7 hi"` snip payload from that same
address. -/
theorem on_snip_always_pushes_witness :
    split (toL "7 hi") ' ' = (toL "7", toL "hi") ∧
    cppStoul (toL "7") = some 7 ∧
    ∃ st', on_snip { shared_state_init ⟨toL "10.0.0.1", 4242⟩ with clock := 3 }
        ⟨toL "10.0.0.1", 4242⟩ (toL "7 hi") 0 = Except.ok st' ∧
      st'.incoming = [] ++ [(addrToString ⟨toL "10.0.0.1", 4242⟩, toL "hi", max 3 7)] ∧
      st'.log.snippets = [] ++ [⟨max 3 7, toL "hi", addrToString ⟨toL "10.0.0.1", 4242⟩⟩] :=
  ⟨by decide, by decide,
    on_snip_always_pushes { shared_state_init ⟨toL "10.0.0.1", 4242⟩ with clock := 3 }
      ⟨toL "10.0.0.1", 4242⟩ (toL "7 hi") (toL "7") (toL "hi") 7 0
      (by decide) (by decide)⟩

theorem mem_leaveP {m : List (addr × Int)} {p : addr} {q : addr × Int} :
    q ∈ leaveP m p ↔ q ∈ m ∧ q.1 ≠ p := by
  simp [leaveP, List.mem_filter]

theorem mem_foldl_leave (snap m0 : List (addr × Int)) (now : Int)
    (q : addr × Int) :
    q ∈ snap.foldl (fun acc r => if now - r.2 > 20 then leaveP acc r.1 else acc) m0 ↔
      (q ∈ m0 ∧ ∀ r ∈ snap, now - r.2 > 20 → q.1 ≠ r.1) := by
  induction snap generalizing m0 with
  | nil => simp
  | cons r snap ih =>
    rw [List.foldl_cons, ih]
    by_cases h : now - r.2 > 20
    · rw [if_pos h, mem_leaveP]
      constructor
      · rintro ⟨⟨hq, hne⟩, hrest⟩
        refine ⟨hq, ?_⟩
        intro r' hr' hgt
        rcases List.mem_cons.1 hr' with rfl | hr'
        · exact hne
        · exact hrest r' hr' hgt
      · rintro ⟨hq, hall⟩
        refine ⟨⟨hq, hall r (List.mem_cons_self r snap) h⟩, ?_⟩
        intro r' hr' hgt
        exact hall r' (List.mem_cons_of_mem r hr') hgt
    · rw [if_neg h]
      constructor
      · rintro ⟨hq, hrest⟩
        refine ⟨hq, ?_⟩
        intro r' hr' hgt
        rcases List.mem_cons.1 hr' with rfl | hr'
        · exact absurd hgt h
        · exact hrest r' hr' hgt
      · rintro ⟨hq, hall⟩
        refine ⟨hq, ?_⟩
        intro r' hr' hgt
        exact hall r' (List.mem_cons_of_mem r hr') hgt

theorem keys_nodup_val_eq {m : List (addr × Int)}
    (h : (m.map Prod.fst).Nodup) {a : addr} {t s : Int}
    (h1 : (a, t) ∈ m) (h2 : (a, s) ∈ m) : t = s := by
  induction m with
  | nil => cases h1
  | cons q m ih =>
    rw [List.map_cons, List.nodup_cons] at h
    rcases List.mem_cons.1 h1 with h1' | h1' <;>
      rcases List.mem_cons.1 h2 with h2' | h2'
    · rw [← h1'] at h2'
      exact (Prod.ext_iff.mp h2').2.symm
    · exfalso
      exact h.1 (List.mem_map.2 ⟨(a, s), h2', by rw [← h1']⟩)
    · exfalso
      exact h.1 (List.mem_map.2 ⟨(a, t), h1', by rw [← h2']⟩)
    · exact ih h.2 h1' h2'

/-- C5: for every peer table with distinct keys and every sweep time,
`clean_peer_list` with `DEFAULT_TIMEOUT = 20 s` keeps exactly the entries
whose elapsed time is within the timeout: an entry survives the sweep iff
it was present and `now - lastSeen ≤ 20`, unchanged. -/
theorem clean_peer_list_mem (m : List (addr × Int)) (now : Int)
    (hnd : (m.map Prod.fst).Nodup) (a : addr) (t : Int) :
    (a, t) ∈ clean_peer_list m now ↔ ((a, t) ∈ m ∧ now - t ≤ 20) := by
  unfold clean_peer_list
  rw [mem_foldl_leave]
  constructor
  · rintro ⟨hm, hall⟩
    refine ⟨hm, ?_⟩
    by_contra hgt
    rw [Int.not_le] at hgt
    exact hall (a, t) hm hgt rfl
  · rintro ⟨hm, hle⟩
    refine ⟨hm, ?_⟩
    intro r hr hgt heq
    have heq' : a = r.1 := heq
    have hmem : (a, r.2) ∈ m := by
      rw [heq']
      simpa using hr
    have hval : r.2 = t := keys_nodup_val_eq hnd hmem hm
    rw [hval] at hgt
    exact absurd hle (Int.not_le.2 hgt)

/-- Witness for C5: table `{10.0.0.2:5000 ↦ 100, 10.0.0.3:5000 ↦ 50}`,
sweep at time `110`: the characterization applies to the stale entry. -/
theorem clean_peer_list_mem_witness :
    (([(⟨toL "10.0.0.2", 5000⟩, (100 : Int)),
       (⟨toL "10.0.0.3", 5000⟩, (50 : Int))] : List (addr × Int)).map
        Prod.fst).Nodup ∧
    ((⟨toL "10.0.0.3", 5000⟩, (50 : Int)) ∈
        clean_peer_list [(⟨toL "10.0.0.2", 5000⟩, (100 : Int)),
          (⟨toL "10.0.0.3", 5000⟩, (50 : Int))] 110 ↔
      ((⟨toL "10.0.0.3", 5000⟩, (50 : Int)) ∈
          ([(⟨toL "10.0.0.2", 5000⟩, (100 : Int)),
            (⟨toL "10.0.0.3", 5000⟩, (50 : Int))] : List (addr × Int)) ∧
        (110 : Int) - 50 ≤ 20)) :=
  ⟨by decide, clean_peer_list_mem _ 110 (by decide) _ 50⟩

theorem mem_keys_joinP (m : List (addr × Int)) (p : addr) (t : Int)
    (a : addr) :
    a ∈ (joinP m p t).map Prod.fst ↔ (a = p ∨ a ∈ m.map Prod.fst) := by
  induction m with
  | nil => simp [joinP]
  | cons q m ih =>
    simp only [joinP]
    by_cases h : q.1 = p
    · rw [if_pos h]
      simp only [List.map_cons, List.mem_cons]
      rw [h]
      tauto
    · rw [if_neg h]
      simp only [List.map_cons, List.mem_cons, ih]
      tauto

/-- C6 (counterexample): constructing the node with address
`10.0.0.1:4000` and bootstrap peer set `{10.0.0.2:5000}` leaves a peer
table whose keys do not include the node's own endpoint: neither
`shared_state`'s constructor nor `peer_manager`'s joins `m_address`. -/
theorem construct_self_absent :
    (⟨toL "10.0.0.1", 4000⟩ : addr) ∉
      (peer_manager_init (shared_state_init ⟨toL "10.0.0.1", 4000⟩)
          ⟨toL "9.9.9.9", 1⟩ [⟨toL "10.0.0.2", 5000⟩] 100
          (toL "2024-01-01")).peers.map Prod.fst := by
  decide

/-- C6 (amended): immediately after construction the peer table's keys
are exactly the bootstrap peers passed to the constructor; the node's own
endpoint is present only if it happens to be among them. -/
theorem construct_keys_eq_bootstrap (selfA src : addr)
    (bootstrap : List addr) (now : Int) (date : List Char) (a : addr) :
    a ∈ (peer_manager_init (shared_state_init selfA) src bootstrap now
        date).peers.map Prod.fst ↔ a ∈ bootstrap := by
  have hfold : ∀ (bs : List addr) (st : nodeState),
      a ∈ ((bs.foldl (fun s p =>
          { s with peers := joinP s.peers p now,
                   log := log_peer s.log (addrToString p) }) st).peers.map
            Prod.fst) ↔ (a ∈ bs ∨ a ∈ st.peers.map Prod.fst) := by
    intro bs
    induction bs with
    | nil => intro st; simp
    | cons p bs ih =>
      intro st
      rw [List.foldl_cons, ih]
      simp only [mem_keys_joinP, List.mem_cons]
      tauto
  simp only [peer_manager_init, log_source]
  rw [hfold]
  simp [shared_state_init]

/-- C7: the `receive peers` handler constructs the `address_v4` — whose
constructor resolves the host and throws `net::address_error` when
resolution fails — before testing the host against `"null"`.  With the
unresolvable sentinel, the payload `1\nnull:0\n` therefore throws out of
the handler instead of skipping the line; a count of `0` is valid and
inserts nothing, and resolvable non-null lines are inserted. -/
theorem handle_peers_null_throws :
    literalResolve (toL "null") = none ∧
    handle_peers literalResolve (toL "1\nnull:0\n") [] =
      Except.error (toL "address_error") ∧
    handle_peers literalResolve (toL "0\n") [] = Except.ok [] ∧
    handle_peers literalResolve (toL "2\n10.0.0.5:1\n10.0.0.6:2\n") [] =
      Except.ok [⟨toL "10.0.0.5", 1⟩, ⟨toL "10.0.0.6", 2⟩] :=
  ⟨rfl, rfl, rfl, rfl⟩

/-- C8 (counterexample): an empty command line maps to `request::empty`,
for which the static `request_handlers` map has no entry, so
`request_handlers.at` throws `std::out_of_range`; `registry::run` has no
try/catch, so the exception propagates out of `run` — the dialog does not
terminate cleanly. -/
theorem run_step_empty_throws :
    run_step (toL "") = Except.error (toL "out_of_range") := rfl

/-- C8 (amended): every command line classified as `request::empty` or
`request::invalid` makes the dispatch lookup `request_handlers.at` throw
`std::out_of_range`, which propagates out of `registry::run`; neither
case is handled inside `run` and no stderr note is printed there. -/
theorem run_step_unhandled (cmd : List Char)
    (h : to_request cmd = requestT.empty ∨ to_request cmd = requestT.invalid) :
    run_step cmd = Except.error (toL "out_of_range") := by
  unfold run_step
  rcases h with h | h <;> rw [h] <;> rfl

/-- Witness for C8's amended theorem: `"bogus"` matches no command
substring, so it is `request::invalid` and the dispatch throws. -/
theorem run_step_unhandled_witness :
    (to_request (toL "bogus") = requestT.empty ∨
      to_request (toL "bogus") = requestT.invalid) ∧
    run_step (toL "bogus") = Except.error (toL "out_of_range") :=
  ⟨Or.inr rfl, run_step_unhandled (toL "bogus") (Or.inr rfl)⟩

theorem digitChar_ne_newline (d : Nat) : digitChar d ≠ '\n' := by
  unfold digitChar
  split <;> decide

theorem charToDigit_digitChar {d : Nat} (h : d < 10) :
    charToDigit (digitChar d) = d := by
  interval_cases d <;> rfl

theorem natToCharsAux_ne_newline (f : Nat) :
    ∀ n, ∀ c ∈ natToCharsAux f n, c ≠ '\n' := by
  induction f with
  | zero =>
    intro n c hc
    cases hc
  | succ f ih =>
    intro n c hc
    cases n with
    | zero => cases hc
    | succ m =>
      rw [natToCharsAux] at hc
      rcases List.mem_append.1 hc with h1 | h1
      · exact ih _ c h1
      · rw [List.mem_singleton] at h1
        subst h1
        exact digitChar_ne_newline _

theorem noNL_natToChars (n : Nat) : noNL (natToChars n) := by
  unfold natToChars noNL
  split
  · decide
  · intro hmem
    exact natToCharsAux_ne_newline n n '\n' hmem rfl

theorem natFromChars_append (l r : List Char) :
    natFromChars (l ++ r) =
      r.foldl (fun a c => a * 10 + charToDigit c) (natFromChars l) := by
  unfold natFromChars
  rw [List.foldl_append]

theorem natToCharsAux_val (f : Nat) :
    ∀ n, n ≤ f → n ≠ 0 → natFromChars (natToCharsAux f n) = n := by
  induction f with
  | zero =>
    intro n h h0
    omega
  | succ f ih =>
    intro n hle h0
    obtain ⟨m, rfl⟩ : ∃ m, n = m + 1 := ⟨n - 1, by omega⟩
    rw [natToCharsAux, natFromChars_append]
    simp only [List.foldl_cons, List.foldl_nil]
    rw [charToDigit_digitChar (Nat.mod_lt _ (by norm_num))]
    by_cases hq : (m + 1) / 10 = 0
    · rw [hq]
      have hnil : natToCharsAux f 0 = [] := by cases f <;> rfl
      rw [hnil]
      show natFromChars [] * 10 + (m + 1) % 10 = m + 1
      have : natFromChars [] = 0 := rfl
      rw [this]
      omega
    · rw [ih ((m + 1) / 10) (by omega) hq]
      omega

theorem natFromChars_natToChars (n : Nat) :
    natFromChars (natToChars n) = n := by
  unfold natToChars
  by_cases h : n = 0
  · rw [if_pos h, h]
    rfl
  · rw [if_neg h]
    exact natToCharsAux_val n n (Nat.le_refl n) h

theorem readLine_append {l : List Char} (hl : '\n' ∉ l) (r : List Char) :
    readLine (l ++ '\n' :: r) = (l, r) := by
  induction l with
  | nil => rfl
  | cons c l ih =>
    have hc : ¬(c = '\n') := fun h => hl (h ▸ List.mem_cons_self c l)
    have hl' : '\n' ∉ l := fun h => hl (List.mem_cons_of_mem c h)
    rw [List.cons_append, readLine, if_neg hc, ih hl']

theorem parseCount_append (n : Nat) (r : List Char) :
    parseCount (natToChars n ++ '\n' :: r) = (n, r) := by
  unfold parseCount
  rw [readLine_append (noNL_natToChars n) r]
  dsimp only
  rw [natFromChars_natToChars]

theorem skipLines_one (l : List Char) (hl : '\n' ∉ l) (n : Nat)
    (r : List Char) : skipLines (n + 1) (l ++ '\n' :: r) = skipLines n r := by
  rw [skipLines, readLine_append hl]

theorem skipLines_flatten {α : Type} (f : α → List Char) (xs : List α)
    (hf : ∀ x ∈ xs, '\n' ∉ f x) (r : List Char) :
    skipLines xs.length ((xs.map (fun x => f x ++ ['\n'])).flatten ++ r) = r := by
  induction xs with
  | nil => rfl
  | cons x xs ih =>
    have hx : '\n' ∉ f x := hf x (List.mem_cons_self x xs)
    have hxs : ∀ y ∈ xs, '\n' ∉ f y := fun y hy => hf y (List.mem_cons_of_mem x hy)
    simp only [List.map_cons, List.flatten_cons, List.length_cons,
      List.append_assoc, List.singleton_append, List.cons_append]
    rw [skipLines_one (f x) hx, List.nil_append, ih hxs]

theorem noNL_addrToString {a : addr} (h : noNL a.host) :
    noNL (addrToString a) := by
  unfold noNL addrToString
  intro hmem
  rcases List.mem_append.1 hmem with h1 | h1
  · exact h h1
  · rcases List.mem_cons.1 h1 with h2 | h2
    · exact absurd h2 (by decide)
    · exact noNL_natToChars a.port h2

theorem skipSources_flatten (ss : List (List Char × sourceEntry))
    (r : List Char)
    (hs : ∀ se ∈ ss, noNL se.1 ∧ noNL se.2.date ∧ ∀ a ∈ se.2.peers, noNL a.host) :
    skipSources ss.length
      ((ss.map (fun se => se.1 ++ '\n' :: (se.2.date ++ '\n' ::
          (natToChars se.2.peers.length ++ '\n' ::
          (se.2.peers.map (fun p => addrToString p ++ ['\n'])).flatten)))).flatten
        ++ r) = r := by
  induction ss with
  | nil => rfl
  | cons se ss ih =>
    obtain ⟨h1, h2, h3⟩ := hs se (List.mem_cons_self se ss)
    have hss : ∀ q ∈ ss, noNL q.1 ∧ noNL q.2.date ∧ ∀ a ∈ q.2.peers, noNL a.host :=
      fun q hq => hs q (List.mem_cons_of_mem se hq)
    simp only [List.map_cons, List.flatten_cons, List.length_cons,
      List.append_assoc, List.cons_append]
    rw [skipSources]
    rw [show (2 : Nat) = 1 + 1 from rfl, skipLines_one se.1 h1,
      skipLines_one se.2.date h2]
    rw [show ∀ s : List Char, skipLines 0 s = s from fun s => rfl]
    rw [parseCount_append]
    dsimp only
    rw [skipLines_flatten (fun p => addrToString p) se.2.peers
      (fun a ha => noNL_addrToString (h3 a ha))]
    exact ih hss

theorem noNL_advertLine {p : peerAdvert} (h1 : noNL p.dst) (h2 : noNL p.src)
    (h3 : noNL p.date) : noNL (advertLine p) := by
  unfold noNL at h1 h2 h3 ⊢
  intro hmem
  have hsp : ¬('\n' = ' ') := by decide
  simp only [advertLine, List.mem_append, List.mem_cons] at hmem
  tauto

/-- C9: report assembly is a pure function of the Activity Log — two
invocations on the same log value give the same string — the output
follows the §4.8 layout, and a parser that reads each count line and
skips that many records recovers the five original collection sizes.
The pre-snippet fields the program actually stores (endpoint strings and
`strftime` dates) contain no newline, which `logWF` captures. -/
theorem assemble_report_roundtrip (lg : logState) (h : logWF lg) :
    (∀ r1 r2, r1 = assemble_report lg → r2 = assemble_report lg → r1 = r2) ∧
    parseReportCounts (assemble_report lg) =
      (lg.peersL.length, lg.sources.length, lg.recvPeers.length,
       lg.sentPeers.length, lg.snippets.length) := by
  obtain ⟨hp, hs, hr, hsn⟩ := h
  refine ⟨fun r1 r2 h1 h2 => h1.trans h2.symm, ?_⟩
  have hrv' : ∀ p ∈ lg.recvPeers, '\n' ∉ advertLine p := fun p hp' =>
    noNL_advertLine (hr p hp').1 (hr p hp').2.1 (hr p hp').2.2
  have hsn' : ∀ p ∈ lg.sentPeers, '\n' ∉ advertLine p := fun p hp' =>
    noNL_advertLine (hsn p hp').1 (hsn p hp').2.1 (hsn p hp').2.2
  simp only [parseReportCounts, assemble_report, List.append_assoc,
    List.cons_append]
  rw [parseCount_append]
  dsimp only
  rw [skipLines_flatten (fun p => p) lg.peersL hp]
  rw [parseCount_append]
  dsimp only
  rw [skipSources_flatten lg.sources _ hs]
  rw [parseCount_append]
  dsimp only
  rw [skipLines_flatten advertLine lg.recvPeers hrv']
  rw [parseCount_append]
  dsimp only
  rw [skipLines_flatten advertLine lg.sentPeers hsn']
  rw [parseCount_append]

/-- Witness for C9: `sampleLog` satisfies the newline-freeness hypothesis
and parsing its assembled report recovers the five collection sizes. -/
theorem assemble_report_roundtrip_witness :
    logWF sampleLog ∧
    ((∀ r1 r2, r1 = assemble_report sampleLog →
        r2 = assemble_report sampleLog → r1 = r2) ∧
     parseReportCounts (assemble_report sampleLog) = (1, 1, 1, 1, 1)) :=
  ⟨by decide, assemble_report_roundtrip sampleLog (by decide)⟩
